import Mathlib

/-!
# volm_conf_query: configurational objects of a labelled depth-map scene

A shallow embedding of `contrib/brl/bbas/volm/conf/volm_conf_query.cxx`.

Conventions of the embedding.

* `double` and `float` values are exact rationals (`ℚ`): every arithmetic
  operation of the source is the exact operation, and the `double → float`
  narrowing is the identity.  Statements about rounding, NaN or infinities
  are outside this model.
* `unsigned` is a natural number, `int` an integer; the casts written in the
  source are explicit functions (`to_unsigned`, `to_int`) that wrap at 32
  bits.
* `vcl_map<K, V>` is an association list kept in strictly ascending key
  order: `insert` leaves the map unchanged when the key is already present,
  `begin` is the entry with the smallest key.
* An operation whose behaviour is undefined in C++ (indexing a vector out of
  its range, dereferencing a null scene pointer, overflowing an `int` loop
  counter) yields `none`.
* The camera, the spherical-coordinate conversion, the horizon computation,
  the band polygon of a polyline and the polygon scan iterator are library
  code outside this file of the repository; they appear as fields of the
  camera or as function parameters.
-/

namespace volm

/-! ## `vcl_map` -/

/-- A `vcl_map<K, V>`: the entries in ascending key order. -/
abbrev vcl_map (K V : Type) := List (K × V)

namespace vcl_map

variable {K V : Type} [LinearOrder K]

/-- The call `m.insert(vcl_pair<K, V>(k, v))`: the entry is placed at its
position in key order; a map that already holds `k` is left as it is. -/
def insert (k : K) (v : V) : vcl_map K V → vcl_map K V
  | [] => [(k, v)]
  | (k', v') :: rest =>
    if k < k' then (k, v) :: (k', v') :: rest
    else if k' < k then (k', v') :: insert k v rest
    else (k', v') :: rest

/-- The lookup `m.find(k)`: the value stored under `k`, if any. -/
def find (k : K) : vcl_map K V → Option V
  | [] => none
  | (k', v') :: rest => if k' = k then some v' else find k rest

/-- The read `m[k]`: the value stored under `k`, or the value-initialised
`dflt` when the key is absent. -/
def index (m : vcl_map K V) (k : K) (dflt : V) : V :=
  (find k m).getD dflt

/-- The keys of the map, in iteration order. -/
def keys (m : vcl_map K V) : List K :=
  m.map Prod.fst

/-- The class invariant of `vcl_map`: keys strictly ascending. -/
def ordered (m : vcl_map K V) : Prop :=
  (keys m).Sorted (· < ·)

/-- The map obtained by inserting, in list order, the entry `(κ a, f a)` of
every element `a` of a list. -/
def insert_all {α : Type} (κ : α → K) (f : α → V) (m : vcl_map K V) (l : List α) : vcl_map K V :=
  l.foldl (fun acc a => insert (κ a) (f a) acc) m

end vcl_map

/-! ## Geometry -/

/-- A `vgl_point_2d<double>`. -/
structure vgl_point_2d where
  x : ℚ
  y : ℚ
  deriving DecidableEq

/-- A `vgl_line_2d<double>`: the line `a*x + b*y + c = 0`. -/
structure vgl_line_2d where
  a : ℚ
  b : ℚ
  c : ℚ
  deriving DecidableEq

/-- A `vgl_polygon<double>`: its sheets, each a sequence of vertices. -/
abbrev vgl_polygon := List (List vgl_point_2d)

/-- What `volm_conf_query` uses of a `vpgl_perspective_camera<double>`.
For the image point `(x, y)`, with `sp` the spherical coordinates of the
direction of `cam.backproject(x, y)`:
`tan_pi_minus_theta x y` is the value of `vcl_tan(vnl_math::pi - sp.theta_)`
and `phi x y` is `sp.phi_`; `horizon` is `bpgl_camera_utils::horizon(cam)`. -/
structure vpgl_perspective_camera where
  tan_pi_minus_theta : ℚ → ℚ → ℚ
  phi : ℚ → ℚ → ℚ
  horizon : vgl_line_2d

/-- The cast `(unsigned)x` of a `double`: truncation toward zero.  For a
value outside the range of `unsigned` the C++ conversion is undefined; the
model reduces it modulo `2 ^ 32`. -/
def to_unsigned (x : ℚ) : ℕ :=
  ((if 0 ≤ x then ⌊x⌋ else ⌈x⌉) % 4294967296).toNat

/-- The function `volm_conf_query::line_coord`. -/
def line_coord (line : vgl_line_2d) (x : ℚ) : ℚ :=
  if line.b = 0 then 0
  else -line.a / line.b * x - line.c / line.b

/-! ## `volm_conf_query::project` -/

/-- The four outputs of `project`: `min_dist`, `phi`, `i`, `j`. -/
structure projection where
  min_dist : ℚ
  phi : ℚ
  i : ℕ
  j : ℕ
  deriving DecidableEq

/-- The value the outputs are set to on entry of `project`. -/
def sentinel : projection := ⟨-1, -1, 0, 0⟩

/-- The test `y < yl` of the loop is false: the vertex is kept. -/
def qualifies (horizon : vgl_line_2d) (v : vgl_point_2d) : Prop :=
  ¬ v.y < line_coord horizon v.x

instance (horizon : vgl_line_2d) (v : vgl_point_2d) : Decidable (qualifies horizon v) := by
  unfold qualifies; infer_instance

/-- The vertices of a sheet that pass the horizon test, in polygon order. -/
def qualifying (horizon : vgl_line_2d) (sheet : List vgl_point_2d) : List vgl_point_2d :=
  sheet.filter (fun v => decide (qualifies horizon v))

/-- The `float dist` computed for a vertex. -/
def vertex_dist (altitude_ : ℚ) (cam : vpgl_perspective_camera) (v : vgl_point_2d) : ℚ :=
  cam.tan_pi_minus_theta v.x v.y * altitude_

/-- The pixel recorded for a vertex. -/
def vertex_pixel (v : vgl_point_2d) : ℕ × ℕ :=
  (to_unsigned v.x, to_unsigned v.y)

/-- One pass of the body of the vertex loop of `project`, on the two local
maps `pt_pairs` and `pt_pixels`. -/
def project_step (altitude_ : ℚ) (cam : vpgl_perspective_camera) (horizon : vgl_line_2d)
    (maps : vcl_map ℚ ℚ × vcl_map ℚ (ℕ × ℕ)) (v : vgl_point_2d) :
    vcl_map ℚ ℚ × vcl_map ℚ (ℕ × ℕ) :=
  let x := v.x
  let y := v.y
  let yl := line_coord horizon x
  if y < yl then maps
  else
    let dist := cam.tan_pi_minus_theta x y * altitude_
    (vcl_map.insert dist (cam.phi x y) maps.1,
     vcl_map.insert dist (to_unsigned x, to_unsigned y) maps.2)

/-- The body of `volm_conf_query::project` once `poly[0]` is bound to
`sheet`: the vertex loop, then the selection of the outputs. -/
def project_sheet (altitude_ : ℚ) (cam : vpgl_perspective_camera) (horizon : vgl_line_2d)
    (sheet : List vgl_point_2d) : projection :=
  let maps := sheet.foldl (project_step altitude_ cam horizon) ([], [])
  let pt_pairs := maps.1
  let pt_pixels := maps.2
  match pt_pairs with
  | [] => ⟨-1, -1, 0, 0⟩
  | (min_dist, _) :: _ =>
    ⟨min_dist, vcl_map.index pt_pairs min_dist 0,
      (vcl_map.index pt_pixels min_dist (0, 0)).1,
      (vcl_map.index pt_pixels min_dist (0, 0)).2⟩

/-- The function `volm_conf_query::project` (the argument `cam_center` is not read by the
body and is left out).  `none` stands for the undefined `poly[0]` of a
polygon without sheets. -/
def project (altitude_ : ℚ) (cam : vpgl_perspective_camera) (horizon : vgl_line_2d)
    (poly : vgl_polygon) : Option projection :=
  match poly with
  | [] => none
  | sheet :: _ => some (project_sheet altitude_ cam horizon sheet)

/-- The test `theta < 0 && dist < 0` by which `create_conf_object` skips the
result of `project`. -/
def discarded (p : projection) : Prop :=
  p.phi < 0 ∧ p.min_dist < 0

instance (p : projection) : Decidable (discarded p) := by
  unfold discarded; infer_instance

/-! ## Sample inputs -/

/-- The horizon `y = 0`. -/
def sample_horizon : vgl_line_2d := ⟨0, 1, 0⟩

/-- A camera whose rays give `tan(π - θ) = x / 10` and `φ = y / 100`. -/
def sample_camera : vpgl_perspective_camera :=
  ⟨fun x _ => x / 10, fun _ y => y / 100, sample_horizon⟩

/-- Three vertices below `sample_horizon`; at altitude 1 `sample_camera` puts
them at the distances 5, 2 and 8. -/
def sample_sheet : List vgl_point_2d := [⟨50, 10⟩, ⟨20, 30⟩, ⟨80, 35⟩]

/-- A camera every ray of which points above the horizontal plane, at 45
degrees (`tan(π - θ) = -1`), with azimuth `-1`. -/
def upward_camera : vpgl_perspective_camera :=
  ⟨fun _ _ => -1, fun _ _ => -1, sample_horizon⟩

/-- Four vertices below `sample_horizon`; at altitude 1 `sample_camera` puts
them at the distances 5, 2, 2 and 8: the second and the third tie at the
least distance, with different bearings and pixels. -/
def tie_sheet : List vgl_point_2d := [⟨50, 10⟩, ⟨20, 30⟩, ⟨20, 70⟩, ⟨80, 35⟩]

/-! ## The scene and the query object -/

/-- A `vcl_string`. -/
abbrev vcl_string := String

/-- What `volm_conf_query` reads of a `depth_map_region`: its name, its
reference flag, its land class (an `unsigned char`) and the vertices of its
image polygon `region_2d()`. -/
structure depth_map_region where
  name : vcl_string
  is_ref : Bool
  land_id : ℕ
  region_2d : List vgl_point_2d

/-- What `volm_conf_query` reads of a `depth_map_scene`. -/
structure depth_map_scene where
  ni : ℕ
  nj : ℕ
  ground_plane : List depth_map_region
  scene_regions : List depth_map_region

/-- Modelled from the spec: `bsol_algs::vgl_from_poly`, which is not among the
source files.  The spec's scene region is a 2D polygon given as an ordered
sequence of points of which the first sheet is the meaningful one: the
adapter yields one sheet holding the points of the region in their order. -/
def vgl_from_poly (region_2d : List vgl_point_2d) : vgl_polygon :=
  [region_2d]

/-- Modelled from the spec: the class `volm_conf_object` is not among the
source files.  The spec's configurational object is the immutable value
`{bearing, distance, landClass}`; `volm_conf_object.mk theta dist land`
stands for `new volm_conf_object(theta, dist, land)`. -/
structure volm_conf_object where
  theta : ℚ
  dist : ℚ
  land : ℕ
  deriving DecidableEq

/-- The members of `volm_conf_query` that `parse_ref_object` and
`create_conf_object` read or write.  `dm_` is `none` for a null scene
pointer. -/
structure volm_conf_query where
  ncam_ : ℕ
  altitude_ : ℚ
  dm_ : Option depth_map_scene
  cameras_ : List vpgl_perspective_camera
  camera_strings_ : List vcl_string
  ref_obj_name_ : List vcl_string
  conf_objects_ : List (vcl_map vcl_string volm_conf_object)
  conf_objects_pixels_ : List (vcl_map vcl_string (ℕ × ℕ))

/-- One of the two loops of `parse_ref_object`: the name of every region of
the list whose `is_ref()` holds is pushed back, in list order. -/
def push_ref_names (names : List vcl_string) (regions : List depth_map_region) :
    List vcl_string :=
  regions.foldl (fun acc r => if r.is_ref then acc ++ [r.name] else acc) names

/-- The function `volm_conf_query::parse_ref_object`: the returned flag and the query
afterwards. -/
def parse_ref_object (q : volm_conf_query) (dm : Option depth_map_scene) :
    Bool × volm_conf_query :=
  let q0 := { q with ref_obj_name_ := [] }
  match dm with
  | none => (false, q0)
  | some dm =>
    let names1 :=
      if dm.ground_plane.length ≠ 0 then push_ref_names q0.ref_obj_name_ dm.ground_plane
      else q0.ref_obj_name_
    let names2 :=
      if dm.scene_regions.length ≠ 0 then push_ref_names names1 dm.scene_regions
      else names1
    let q1 := { q0 with ref_obj_name_ := names2 }
    if names2.isEmpty then (false, q1) else (true, q1)

/-- The body of the region loop of `create_conf_object` for one region, on
the two local maps `conf_object` and `conf_pixels`. -/
def conf_region_step (altitude_ : ℚ) (pcam : vpgl_perspective_camera) (h_line : vgl_line_2d)
    (maps : vcl_map vcl_string volm_conf_object × vcl_map vcl_string (ℕ × ℕ))
    (region : depth_map_region) :
    Option (vcl_map vcl_string volm_conf_object × vcl_map vcl_string (ℕ × ℕ)) :=
  let poly := vgl_from_poly region.region_2d
  match project altitude_ pcam h_line poly with
  | none => none
  | some p =>
    let dist := p.min_dist
    let theta := p.phi
    if theta < 0 ∧ dist < 0 then some maps
    else
      let land_id := region.land_id
      let conf_obj := volm_conf_object.mk theta dist land_id
      some (vcl_map.insert region.name conf_obj maps.1,
            vcl_map.insert region.name (p.i, p.j) maps.2)

/-- The body of the camera loop of `create_conf_object` for the index
`cam_id`, on the members `conf_objects_` and `conf_objects_pixels_`.  The
reads `camera_strings_[cam_id]`, `cameras_[cam_id]` and `dm_->scene_regions()`
are undefined out of range or on a null scene. -/
def conf_camera_step (q : volm_conf_query)
    (acc : List (vcl_map vcl_string volm_conf_object) × List (vcl_map vcl_string (ℕ × ℕ)))
    (cam_id : ℕ) :
    Option (List (vcl_map vcl_string volm_conf_object) × List (vcl_map vcl_string (ℕ × ℕ))) :=
  match q.camera_strings_[cam_id]?, q.cameras_[cam_id]?, q.dm_ with
  | some _, some pcam, some dm =>
    let h_line := pcam.horizon
    let regions := dm.scene_regions
    match regions.foldlM (conf_region_step q.altitude_ pcam h_line) ([], []) with
    | none => none
    | some (conf_object, conf_pixels) => some (acc.1 ++ [conf_object], acc.2 ++ [conf_pixels])
  | _, _, _ => none

/-- The function `volm_conf_query::create_conf_object`: the returned flag and the query
afterwards.  Only `conf_objects_` is cleared on entry. -/
def create_conf_object (q : volm_conf_query) : Option (Bool × volm_conf_query) :=
  let q0 := { q with conf_objects_ := [] }
  match (List.range q0.ncam_).foldlM (conf_camera_step q0)
      (q0.conf_objects_, q0.conf_objects_pixels_) with
  | none => none
  | some (objs, pixels) =>
    some (true, { q0 with conf_objects_ := objs, conf_objects_pixels_ := pixels })

/-- The regions whose projection by the camera passes the test of
`create_conf_object`, in list order. -/
def kept_regions (altitude_ : ℚ) (pcam : vpgl_perspective_camera)
    (regions : List depth_map_region) : List depth_map_region :=
  regions.filter (fun r =>
    decide (¬ discarded (project_sheet altitude_ pcam pcam.horizon r.region_2d)))

/-- The configurational object built from the projection of a region. -/
def region_conf_object (altitude_ : ℚ) (pcam : vpgl_perspective_camera)
    (r : depth_map_region) : volm_conf_object :=
  ⟨(project_sheet altitude_ pcam pcam.horizon r.region_2d).phi,
   (project_sheet altitude_ pcam pcam.horizon r.region_2d).min_dist, r.land_id⟩

/-- The pixel recorded from the projection of a region. -/
def region_pixel (altitude_ : ℚ) (pcam : vpgl_perspective_camera)
    (r : depth_map_region) : ℕ × ℕ :=
  ((project_sheet altitude_ pcam pcam.horizon r.region_2d).i,
   (project_sheet altitude_ pcam pcam.horizon r.region_2d).j)

/-- The configuration map `create_conf_object` builds for one camera. -/
def camera_conf_map (altitude_ : ℚ) (regions : List depth_map_region)
    (pcam : vpgl_perspective_camera) : vcl_map vcl_string volm_conf_object :=
  vcl_map.insert_all depth_map_region.name (region_conf_object altitude_ pcam) []
    (kept_regions altitude_ pcam regions)

/-- The pixel map `create_conf_object` builds for one camera. -/
def camera_pixel_map (altitude_ : ℚ) (regions : List depth_map_region)
    (pcam : vpgl_perspective_camera) : vcl_map vcl_string (ℕ × ℕ) :=
  vcl_map.insert_all depth_map_region.name (region_pixel altitude_ pcam) []
    (kept_regions altitude_ pcam regions)

/-- The names of the regions of a list. -/
def region_names (regions : List depth_map_region) : List vcl_string :=
  regions.map depth_map_region.name

/-! ### Sample scene -/

/-- A reference region on the three sample vertices. -/
def sample_building : depth_map_region := ⟨"building", true, 15, sample_sheet⟩

/-- A region with its only vertex above the horizon `y = 0`. -/
def sample_tower : depth_map_region := ⟨"tower", false, 31, [⟨3, -2⟩]⟩

/-- A ground-plane region. -/
def sample_ground : depth_map_region := ⟨"ground", false, 2, [⟨0, 40⟩, ⟨99, 40⟩, ⟨99, 99⟩]⟩

/-- A scene with one ground-plane region and two scene regions. -/
def sample_scene : depth_map_scene := ⟨100, 100, [sample_ground], [sample_building, sample_tower]⟩

/-- The query over `sample_scene` and one camera at altitude 1, with its
reference names parsed and its cameras built, before any configurational
object is built. -/
def sample_query : volm_conf_query :=
  { ncam_ := 1, altitude_ := 1, dm_ := some sample_scene,
    cameras_ := [sample_camera], camera_strings_ := ["cam_0"],
    ref_obj_name_ := ["building"], conf_objects_ := [], conf_objects_pixels_ := [] }

/-- A camera every ray of which gives `tan(π - θ) = -3` and azimuth `-1/2`. -/
def negative_camera : vpgl_perspective_camera :=
  ⟨fun _ _ => -3, fun _ _ => -1 / 2, sample_horizon⟩

/-- A reference region with one vertex, below the horizon `y = 0`. -/
def negative_region : depth_map_region := ⟨"nn", true, 7, [⟨20, 32⟩]⟩

/-- A scene whose only region is `negative_region`. -/
def negative_scene : depth_map_scene := ⟨100, 100, [], [negative_region]⟩

/-- The query over `negative_scene` and `negative_camera` at altitude 1, with
its reference names parsed and its cameras built, before any configurational
object is built. -/
def negative_query : volm_conf_query :=
  { ncam_ := 1, altitude_ := 1, dm_ := some negative_scene,
    cameras_ := [negative_camera], camera_strings_ := ["cam_0"],
    ref_obj_name_ := ["nn"], conf_objects_ := [], conf_objects_pixels_ := [] }

/-! ## Images and the two stamping primitives -/

/-- A `vil_rgb<vxl_byte>`. -/
structure vil_rgb where
  r : ℕ
  g : ℕ
  b : ℕ
  deriving DecidableEq

/-- A `vil_image_view<vil_rgb<vxl_byte> >`: `ni` columns, `nj` rows, and the
value `pixel i j` at column `i` and row `j`, meaningful for `i < ni` and
`j < nj`. -/
structure vil_image_view where
  ni : ℕ
  nj : ℕ
  pixel : ℕ → ℕ → vil_rgb

/-- The assignment `image(i, j) = v`, undefined outside the image. -/
def vil_image_view.assign (image : vil_image_view) (i j : ℕ) (v : vil_rgb) :
    Option vil_image_view :=
  if i < image.ni ∧ j < image.nj then
    some { image with pixel := fun i' j' => if i' = i ∧ j' = j then v else image.pixel i' j' }
  else none

/-- The cast `(int)n` of an `unsigned`: the value modulo `2 ^ 32`, read as a
signed 32-bit integer. -/
def to_int (n : ℕ) : ℤ :=
  if n % 4294967296 < 2147483648 then ((n % 4294967296 : ℕ) : ℤ)
  else ((n % 4294967296 : ℕ) : ℤ) - 4294967296

/-- One position of a `vgl_polygon_scan_iterator`: `scany()`, `startx()` and
`endx()`. -/
structure scan_span where
  scany : ℤ
  startx : ℤ
  endx : ℤ
  deriving DecidableEq

/-- The library code the two primitives call.  `expend_line` is
`volm_io_tools::expend_line`, returning the band polygon; `scan` lists the
positions a `vgl_polygon_scan_iterator` built with boundary visits between
`reset()` and the first failing `next()`; `cos_deg a` and `sin_deg a` are
`vcl_cos(a*vnl_math::pi_over_180)` and `vcl_sin(a*vnl_math::pi_over_180)`. -/
structure raster_library where
  expend_line : List vgl_point_2d → ℚ → vgl_polygon
  scan : vgl_polygon → List scan_span
  cos_deg : ℚ → ℚ
  sin_deg : ℚ → ℚ

/-- The values `x` takes in `for (int x = it.startx(); x <= it.endx(); ++x)`
when the loop exits: the integers from `startx()` to `endx()`. -/
def span_columns (s : scan_span) : List ℤ :=
  (List.range (s.endx + 1 - s.startx).toNat).map (fun (k : ℕ) => s.startx + (k : ℤ))

/-- The body of the inner loop of both primitives for the column `x` of the
row `y`. -/
def plot_pixel (rgb : vil_rgb) (y : ℤ) (image : vil_image_view) (x : ℤ) :
    Option vil_image_view :=
  if x ≥ 0 ∧ y ≥ 0 ∧ x < to_int image.ni ∧ y < to_int image.nj then
    image.assign x.toNat y.toNat rgb
  else some image

/-- The inner loop `for (int x = it.startx(); x <= it.endx(); ++x)` of both
primitives at one position of the iterator.  When the loop is entered and
`endx()` is `INT_MAX` the test `x <= it.endx()` can not fail and `++x`
overflows the `int` counter, which is undefined: `none`. -/
def plot_span (rgb : vil_rgb) (image : vil_image_view) (s : scan_span) :
    Option vil_image_view :=
  if s.startx ≤ s.endx ∧ 2147483647 ≤ s.endx then none
  else (span_columns s).foldlM (plot_pixel rgb s.scany) image

/-- The scan loop shared by both primitives, over the positions of the
iterator. -/
def plot_spans (image : vil_image_view) (spans : List scan_span) (r g b : ℕ) :
    Option vil_image_view :=
  spans.foldlM (plot_span ⟨r, g, b⟩) image

/-- The function `volm_conf_query::plot_line_into_image`. -/
def plot_line_into_image (lib : raster_library) (image : vil_image_view)
    (line : List vgl_point_2d) (r g b : ℕ) (width : ℚ) : Option vil_image_view :=
  let img_poly := lib.expend_line line width
  plot_spans image (lib.scan img_poly) r g b

/-- The call `angles.insert(a)` on a `vcl_set<float>`. -/
def vcl_set_insert (a : ℚ) : List ℚ → List ℚ
  | [] => [a]
  | a' :: rest =>
    if a < a' then a :: a' :: rest
    else if a' < a then a' :: vcl_set_insert a rest
    else a' :: rest

/-- The set `angles` of `plot_dot_into_image`. -/
def dot_angles : List ℚ :=
  [45, 135, 225, 315].foldl (fun angles a => vcl_set_insert a angles)
    ((List.range 37).foldl (fun angles (i : ℕ) => vcl_set_insert ((i : ℚ) * 10) angles) [])

/-- The polygon `img_poly` of `plot_dot_into_image`. -/
def dot_polygon (lib : raster_library) (pt : vgl_point_2d) (radius : ℚ) : vgl_polygon :=
  [dot_angles.map (fun a => ⟨pt.x + radius * lib.cos_deg a, pt.y + radius * lib.sin_deg a⟩)]

/-- The function `volm_conf_query::plot_dot_into_image`. -/
def plot_dot_into_image (lib : raster_library) (image : vil_image_view)
    (pt : vgl_point_2d) (r g b : ℕ) (radius : ℚ) : Option vil_image_view :=
  let img_poly := dot_polygon lib pt radius
  plot_spans image (lib.scan img_poly) r g b

/-- The pixel `(i, j)` lies on one of the spans. -/
def covered (spans : List scan_span) (i j : ℕ) : Prop :=
  ∃ s ∈ spans, s.scany = (j : ℤ) ∧ s.startx ≤ (i : ℤ) ∧ (i : ℤ) ≤ s.endx

/-- The guard of `plot_pixel` holds at column `x` of row `y` of an `ni` by
`nj` image and the pixel addressed is `(i, j)`. -/
def hit (ni nj : ℕ) (y x : ℤ) (i j : ℕ) : Prop :=
  (x ≥ 0 ∧ y ≥ 0 ∧ x < to_int ni ∧ y < to_int nj) ∧ x.toNat = i ∧ y.toNat = j

/-- The image `img'` has the size of `image`, the colour `rgb` at the pixels
satisfying `P` and the contents of `image` elsewhere. -/
def painted (rgb : vil_rgb) (P : ℕ → ℕ → Prop) (image img' : vil_image_view) : Prop :=
  img'.ni = image.ni ∧ img'.nj = image.nj ∧
  ∀ i j, (P i j → img'.pixel i j = rgb) ∧ (¬ P i j → img'.pixel i j = image.pixel i j)

/-- A library whose iterator visits, for every polygon, the single span of
row 0 from column -2 to column 3. -/
def sample_library : raster_library :=
  ⟨fun line _ => [line], fun _ => [⟨0, -2, 3⟩], fun _ => 1, fun _ => 0⟩

/-- A library whose iterator visits, for every polygon, the single span of
row 0 from column `INT_MAX - 1` to column `INT_MAX`. -/
def overflow_library : raster_library :=
  ⟨fun line _ => [line], fun _ => [⟨0, 2147483646, 2147483647⟩], fun _ => 1, fun _ => 0⟩

/-- A black image of 2 columns and 2 rows. -/
def small_image : vil_image_view := ⟨2, 2, fun _ _ => ⟨0, 0, 0⟩⟩

/-- A black image of `2 ^ 31` columns and 1 row. -/
def wide_image : vil_image_view := ⟨2147483648, 1, fun _ _ => ⟨0, 0, 0⟩⟩

/-! ## Facts about `vcl_map` -/

namespace vcl_map

variable {K V : Type} [LinearOrder K]

theorem mem_keys_insert (k k' : K) (v : V) (m : vcl_map K V) :
    k' ∈ keys (insert k v m) ↔ k' = k ∨ k' ∈ keys m := by
  induction m with
  | nil => simp [insert, keys]
  | cons e rest ih =>
    obtain ⟨ke, ve⟩ := e
    simp only [insert]
    split_ifs with h1 h2
    · simp [keys]
    · have ih' : k' ∈ List.map Prod.fst (insert k v rest) ↔ k' = k ∨ k' ∈ List.map Prod.fst rest := ih
      simp only [keys, List.map_cons, List.mem_cons, ih']
      tauto
    · have hk : k = ke := le_antisymm (not_lt.mp h2) (not_lt.mp h1)
      subst hk
      simp [keys]

theorem ordered_tail {e : K × V} {m : vcl_map K V} (h : ordered (e :: m)) : ordered m := by
  unfold ordered keys at *
  exact (List.sorted_cons.mp h).2

theorem ordered_head_lt {e : K × V} {m : vcl_map K V} (h : ordered (e :: m)) :
    ∀ k ∈ keys m, e.1 < k := by
  unfold ordered keys at *
  exact (List.sorted_cons.mp h).1

theorem ordered_insert (k : K) (v : V) (m : vcl_map K V) (h : ordered m) :
    ordered (insert k v m) := by
  induction m with
  | nil => simp [insert, ordered, keys]
  | cons e rest ih =>
    obtain ⟨ke, ve⟩ := e
    simp only [insert]
    split_ifs with h1 h2
    · have hlt := ordered_head_lt h
      unfold ordered keys at *
      simp only [List.map_cons, List.sorted_cons, List.mem_cons]
      refine ⟨?_, List.sorted_cons.mp h⟩
      rintro b (rfl | hb)
      · exact h1
      · exact lt_trans h1 (hlt b hb)
    · have hrest := ih (ordered_tail h)
      have hlt := ordered_head_lt h
      have hmem := fun b => (mem_keys_insert k b v rest).mp
      unfold ordered keys at *
      simp only [List.map_cons, List.sorted_cons]
      refine ⟨?_, hrest⟩
      intro b hb
      rcases hmem b hb with rfl | hb'
      · exact h2
      · exact hlt b hb'
    · exact h

theorem find_eq_none_of_not_mem (k : K) (m : vcl_map K V) (h : k ∉ keys m) :
    find k m = none := by
  induction m with
  | nil => rfl
  | cons e rest ih =>
    obtain ⟨ke, ve⟩ := e
    simp only [keys, List.map_cons, List.mem_cons, not_or] at h
    simp only [find]
    rw [if_neg (fun hke => h.1 hke.symm)]
    exact ih h.2

theorem find_isSome_of_mem (k : K) (m : vcl_map K V) (h : k ∈ keys m) :
    ∃ v, find k m = some v := by
  induction m with
  | nil => simp [keys] at h
  | cons e rest ih =>
    obtain ⟨ke, ve⟩ := e
    simp only [find]
    by_cases hk : ke = k
    · exact ⟨ve, by rw [if_pos hk]⟩
    · rw [if_neg hk]
      simp only [keys, List.map_cons, List.mem_cons] at h
      rcases h with h | h
      · exact absurd h.symm hk
      · exact ih h

theorem find_insert_ne (k k' : K) (v : V) (m : vcl_map K V) (hne : k' ≠ k) :
    find k' (insert k v m) = find k' m := by
  induction m with
  | nil => simp [insert, find, Ne.symm hne]
  | cons e rest ih =>
    obtain ⟨ke, ve⟩ := e
    simp only [insert]
    split_ifs with h1 h2
    · simp [find, Ne.symm hne]
    · simp only [find, ih]
    · rfl

theorem find_insert_of_not_mem (k : K) (v : V) (m : vcl_map K V) (h : k ∉ keys m) :
    find k (insert k v m) = some v := by
  induction m with
  | nil => simp [insert, find]
  | cons e rest ih =>
    obtain ⟨ke, ve⟩ := e
    simp only [keys, List.map_cons, List.mem_cons, not_or] at h
    simp only [insert]
    split_ifs with h1 h2
    · simp [find]
    · simp only [find]
      rw [if_neg (fun hke => h.1 hke.symm)]
      exact ih h.2
    · exact absurd (le_antisymm (not_lt.mp h2) (not_lt.mp h1)) h.1

theorem insert_of_mem (k : K) (v : V) (m : vcl_map K V) (ho : ordered m) (h : k ∈ keys m) :
    insert k v m = m := by
  induction m with
  | nil => simp [keys] at h
  | cons e rest ih =>
    obtain ⟨ke, ve⟩ := e
    simp only [keys, List.map_cons, List.mem_cons] at h
    simp only [insert]
    split_ifs with h1 h2
    · exfalso
      rcases h with h | h
      · exact absurd h (ne_of_lt h1)
      · exact absurd (lt_trans h1 (ordered_head_lt ho k h)) (lt_irrefl _)
    · rcases h with h | h
      · exact absurd h (ne_of_gt h2)
      · rw [ih (ordered_tail ho) h]
    · rfl

theorem ordered_insert_all {α : Type} (κ : α → K) (f : α → V) (l : List α) (m : vcl_map K V)
    (h : ordered m) : ordered (insert_all κ f m l) := by
  induction l generalizing m with
  | nil => exact h
  | cons a l ih => exact ih _ (ordered_insert _ _ _ h)

theorem mem_keys_insert_all {α : Type} (κ : α → K) (f : α → V) (l : List α) (m : vcl_map K V)
    (k : K) : k ∈ keys (insert_all κ f m l) ↔ k ∈ keys m ∨ ∃ a ∈ l, κ a = k := by
  induction l generalizing m with
  | nil => simp [insert_all]
  | cons a l ih =>
    have h := ih (insert (κ a) (f a) m)
    simp only [insert_all, List.foldl_cons] at h ⊢
    rw [h, mem_keys_insert]
    simp only [List.mem_cons, exists_eq_or_imp]
    constructor
    · rintro ((h1 | h1) | h1)
      · exact Or.inr (Or.inl h1.symm)
      · exact Or.inl h1
      · exact Or.inr (Or.inr h1)
    · rintro (h1 | h1 | h1)
      · exact Or.inl (Or.inr h1)
      · exact Or.inl (Or.inl h1.symm)
      · exact Or.inr h1

/-- A key of a map filled from a list keeps the value of the first element
of the list that carries the key. -/
theorem find_insert_all {α : Type} (κ : α → K) (f : α → V) (l : List α) (m : vcl_map K V)
    (ho : ordered m) (k : K) :
    find k (insert_all κ f m l) =
      (find k m).orElse (fun _ => (l.find? (fun a => decide (κ a = k))).map f) := by
  induction l generalizing m with
  | nil => cases h : find k m <;> simp [insert_all, h]
  | cons a l ih =>
    have h := ih (insert (κ a) (f a) m) (ordered_insert _ _ _ ho)
    simp only [insert_all, List.foldl_cons] at h ⊢
    rw [h]
    by_cases hk : κ a = k
    · subst hk
      by_cases hmem : κ a ∈ keys m
      · rw [insert_of_mem _ _ _ ho hmem]
        obtain ⟨w, hw⟩ := find_isSome_of_mem _ _ hmem
        simp [hw]
      · rw [find_insert_of_not_mem _ _ _ hmem, find_eq_none_of_not_mem _ _ hmem]
        simp
    · rw [find_insert_ne _ _ _ _ (Ne.symm hk)]
      simp [List.find?_cons, hk]

end vcl_map

/-! ## Facts about `project` -/

theorem mem_qualifying {horizon : vgl_line_2d} {sheet : List vgl_point_2d} {v : vgl_point_2d} :
    v ∈ qualifying horizon sheet ↔ v ∈ sheet ∧ qualifies horizon v := by
  simp [qualifying]

theorem project_fold (altitude_ : ℚ) (cam : vpgl_perspective_camera) (horizon : vgl_line_2d)
    (sheet : List vgl_point_2d) (maps : vcl_map ℚ ℚ × vcl_map ℚ (ℕ × ℕ)) :
    sheet.foldl (project_step altitude_ cam horizon) maps =
      (vcl_map.insert_all (vertex_dist altitude_ cam) (fun v => cam.phi v.x v.y) maps.1
          (qualifying horizon sheet),
       vcl_map.insert_all (vertex_dist altitude_ cam) vertex_pixel maps.2
          (qualifying horizon sheet)) := by
  induction sheet generalizing maps with
  | nil => rfl
  | cons v sheet ih =>
    rw [List.foldl_cons, ih]
    by_cases hq : v.y < line_coord horizon v.x
    · have hnq : ¬ qualifies horizon v := fun h => h hq
      simp [project_step, hq, qualifying, hnq]
    · have hq' : qualifies horizon v := hq
      simp [project_step, hq, qualifying, hq', vcl_map.insert_all, vertex_dist, vertex_pixel]

/-- With no qualifying vertex the outputs keep their initial values. -/
theorem project_of_qualifying_nil (altitude_ : ℚ) (cam : vpgl_perspective_camera)
    (horizon : vgl_line_2d) (sheet : List vgl_point_2d) (rest : List (List vgl_point_2d))
    (h : qualifying horizon sheet = []) :
    project altitude_ cam horizon (sheet :: rest) = some sentinel := by
  simp [project, project_sheet, project_fold, h, vcl_map.insert_all, sentinel]

/-- With a qualifying vertex the outputs are those of the first qualifying
vertex, in polygon order, among the ones whose distance is least. -/
theorem project_of_qualifying_ne_nil (altitude_ : ℚ) (cam : vpgl_perspective_camera)
    (horizon : vgl_line_2d) (sheet : List vgl_point_2d) (rest : List (List vgl_point_2d))
    (h : qualifying horizon sheet ≠ []) :
    ∃ v ∈ qualifying horizon sheet,
      (∀ w ∈ qualifying horizon sheet, vertex_dist altitude_ cam v ≤ vertex_dist altitude_ cam w) ∧
      (qualifying horizon sheet).find?
        (fun a => decide (vertex_dist altitude_ cam a = vertex_dist altitude_ cam v)) = some v ∧
      project altitude_ cam horizon (sheet :: rest) =
        some ⟨vertex_dist altitude_ cam v, cam.phi v.x v.y, (vertex_pixel v).1, (vertex_pixel v).2⟩ := by
  set q := qualifying horizon sheet with hqdef
  set κ := vertex_dist altitude_ cam with hκ
  have hord : vcl_map.ordered (vcl_map.insert_all κ (fun v => cam.phi v.x v.y) [] q) :=
    vcl_map.ordered_insert_all _ _ _ _ (by simp [vcl_map.ordered, vcl_map.keys])
  have hkeys := vcl_map.mem_keys_insert_all κ (fun v => cam.phi v.x v.y) q []
  have hfind1 := vcl_map.find_insert_all κ (fun v => cam.phi v.x v.y) q []
    (by simp [vcl_map.ordered, vcl_map.keys])
  have hfind2 := vcl_map.find_insert_all κ vertex_pixel q []
    (by simp [vcl_map.ordered, vcl_map.keys])
  cases hm : vcl_map.insert_all κ (fun v => cam.phi v.x v.y) [] q with
  | nil =>
    exfalso
    obtain ⟨a, l, hal⟩ := List.exists_cons_of_ne_nil h
    have := (hkeys (κ a)).mpr (Or.inr ⟨a, by rw [hal]; exact List.mem_cons_self _ _, rfl⟩)
    rw [hm] at this
    simp [vcl_map.keys] at this
  | cons e m =>
    obtain ⟨d0, p0⟩ := e
    rw [hm] at hord hkeys hfind1
    have hd0 : ∃ a ∈ q, κ a = d0 := by
      have := (hkeys d0).mp (by simp [vcl_map.keys])
      simpa [vcl_map.keys] using this
    obtain ⟨a, ha, hka⟩ := hd0
    have hsome : (q.find? (fun b => decide (κ b = d0))).isSome := by
      rw [List.find?_isSome]
      exact ⟨a, ha, by simpa using hka⟩
    obtain ⟨v, hv⟩ := Option.isSome_iff_exists.mp hsome
    have hvq : v ∈ q := List.mem_of_find?_eq_some hv
    have hvk : κ v = d0 := by simpa using List.find?_some hv
    refine ⟨v, hvq, ?_, ?_, ?_⟩
    · intro w hw
      rw [hvk]
      have hwk : κ w ∈ vcl_map.keys ((d0, p0) :: m) := (hkeys (κ w)).mpr (Or.inr ⟨w, hw, rfl⟩)
      simp only [vcl_map.keys, List.map_cons, List.mem_cons] at hwk
      rcases hwk with hwk | hwk
      · exact le_of_eq hwk.symm
      · exact le_of_lt (vcl_map.ordered_head_lt hord _ hwk)
    · rw [hvk]; exact hv
    · have h1 := hfind1 d0
      have h2 := hfind2 d0
      simp only [vcl_map.find, Option.orElse, hv, Option.map_some'] at h1 h2
      have hp0 : p0 = cam.phi v.x v.y := by simpa using h1
      simp only [project, project_sheet, project_fold, ← hqdef, ← hκ, hm, vcl_map.index, h2, hvk]
      simp [vcl_map.find, hp0]

/-- C1: when the first sheet has a qualifying vertex (image y not less than
the horizon's y at its x), `project` returns a distance that is at most the
computed distance of every qualifying vertex, and the returned bearing and
pixel are the ones recorded for one qualifying vertex that has exactly the
returned distance. -/
theorem project_selects_min_distance (altitude_ : ℚ) (cam : vpgl_perspective_camera)
    (horizon : vgl_line_2d) (sheet : List vgl_point_2d) (rest : List (List vgl_point_2d))
    (h : ∃ v ∈ sheet, qualifies horizon v) :
    ∃ p, project altitude_ cam horizon (sheet :: rest) = some p ∧
      (∀ w ∈ sheet, qualifies horizon w → p.min_dist ≤ vertex_dist altitude_ cam w) ∧
      ∃ v ∈ sheet, qualifies horizon v ∧ vertex_dist altitude_ cam v = p.min_dist ∧
        p.phi = cam.phi v.x v.y ∧ (p.i, p.j) = vertex_pixel v := by
  obtain ⟨u, hu, huq⟩ := h
  have hne : qualifying horizon sheet ≠ [] :=
    List.ne_nil_of_mem (mem_qualifying.mpr ⟨hu, huq⟩)
  obtain ⟨v, hv, hmin, -, hp⟩ := project_of_qualifying_ne_nil altitude_ cam horizon sheet rest hne
  refine ⟨_, hp, ?_, v, (mem_qualifying.mp hv).1, (mem_qualifying.mp hv).2, rfl, rfl, rfl⟩
  intro w hw hwq
  exact hmin w (mem_qualifying.mpr ⟨hw, hwq⟩)

/-- Witness for C1: three qualifying vertices at the distances 5, 2 and 8;
the outputs are the distance 2 with the bearing and the pixel of the second
vertex. -/
theorem project_selects_min_distance_witness :
    (∃ v ∈ sample_sheet, qualifies sample_horizon v) ∧
    sample_sheet.map (vertex_dist 1 sample_camera) = [5, 2, 8] ∧
    project 1 sample_camera sample_horizon [sample_sheet] = some ⟨2, 3 / 10, 20, 30⟩ ∧
    ∃ p, project 1 sample_camera sample_horizon [sample_sheet] = some p ∧
      (∀ w ∈ sample_sheet, qualifies sample_horizon w → p.min_dist ≤ vertex_dist 1 sample_camera w) ∧
      ∃ v ∈ sample_sheet, qualifies sample_horizon v ∧ vertex_dist 1 sample_camera v = p.min_dist ∧
        p.phi = sample_camera.phi v.x v.y ∧ (p.i, p.j) = vertex_pixel v := by
  have hq : ∃ v ∈ sample_sheet, qualifies sample_horizon v :=
    ⟨⟨50, 10⟩, by simp [sample_sheet], by norm_num [qualifies, line_coord, sample_horizon]⟩
  refine ⟨hq, ?_, ?_, project_selects_min_distance 1 sample_camera sample_horizon sample_sheet [] hq⟩
  · norm_num [sample_sheet, vertex_dist, sample_camera]
  · norm_num [project, project_sheet, sample_sheet, sample_camera, sample_horizon, project_step, line_coord,
      vcl_map.insert, vcl_map.index, vcl_map.find, to_unsigned]
    exact ⟨rfl, rfl⟩

/-- C2: when every vertex of the first sheet is above the horizon
(`y < line_coord(horizon, x)`), in particular when the sheet has no vertex,
`project` returns `min_dist = -1`, `phi = -1`, `i = 0`, `j = 0`. -/
theorem project_all_above_horizon (altitude_ : ℚ) (cam : vpgl_perspective_camera)
    (horizon : vgl_line_2d) (sheet : List vgl_point_2d) (rest : List (List vgl_point_2d))
    (h : ∀ v ∈ sheet, v.y < line_coord horizon v.x) :
    project altitude_ cam horizon (sheet :: rest) = some ⟨-1, -1, 0, 0⟩ := by
  have hnil : qualifying horizon sheet = [] := by
    rw [qualifying, List.filter_eq_nil_iff]
    intro v hv
    simpa [qualifies] using h v hv
  exact project_of_qualifying_nil altitude_ cam horizon sheet rest hnil

/-- Witness for C2: the sheet without vertices, and a sheet with one vertex
above the horizon `y = 0`. -/
theorem project_all_above_horizon_witness :
    project 1 sample_camera sample_horizon [[]] = some ⟨-1, -1, 0, 0⟩ ∧
    ((∀ v ∈ [(⟨3, -2⟩ : vgl_point_2d)], v.y < line_coord sample_horizon v.x) ∧
      project 1 sample_camera sample_horizon [[⟨3, -2⟩]] = some ⟨-1, -1, 0, 0⟩) :=
  ⟨project_all_above_horizon 1 sample_camera sample_horizon [] [] (by simp),
   by norm_num [line_coord, sample_horizon],
   project_all_above_horizon 1 sample_camera sample_horizon [⟨3, -2⟩] []
     (by norm_num [line_coord, sample_horizon])⟩

/-- C3, counterexample: the vertex `(1/2, 1/2)` is strictly below the horizon
`y = 0`, its ray has distance `-1` and bearing `-1`, and `project` returns
exactly `(-1, -1, 0, 0)`, which the caller's test discards. -/
theorem project_below_horizon_returns_sentinel :
    (∃ v ∈ [(⟨1 / 2, 1 / 2⟩ : vgl_point_2d)], line_coord sample_horizon v.x < v.y) ∧
    project 1 upward_camera sample_horizon [[⟨1 / 2, 1 / 2⟩]] = some sentinel ∧
    discarded sentinel := by
  refine ⟨?_, ?_, ?_⟩
  · norm_num [line_coord, sample_horizon]
  · norm_num [project, project_sheet, upward_camera, sample_horizon, project_step, line_coord,
      vcl_map.insert, vcl_map.index, vcl_map.find, to_unsigned, sentinel]
  · norm_num [discarded, sentinel]

/-- C3, amended: when the first sheet has a vertex strictly below the
horizon and no qualifying vertex has both a negative bearing and a negative
computed distance, the result of `project` differs from `(-1, -1, 0, 0)` and
passes the caller's test. -/
theorem project_below_horizon_valid (altitude_ : ℚ) (cam : vpgl_perspective_camera)
    (horizon : vgl_line_2d) (sheet : List vgl_point_2d) (rest : List (List vgl_point_2d))
    (h : ∃ v ∈ sheet, line_coord horizon v.x < v.y)
    (hsign : ∀ v ∈ sheet, qualifies horizon v →
      ¬ (cam.phi v.x v.y < 0 ∧ vertex_dist altitude_ cam v < 0)) :
    ∃ p, project altitude_ cam horizon (sheet :: rest) = some p ∧
      p ≠ sentinel ∧ ¬ discarded p := by
  obtain ⟨u, hu, hub⟩ := h
  have huq : qualifies horizon u := not_lt.mpr (le_of_lt hub)
  have hne : qualifying horizon sheet ≠ [] :=
    List.ne_nil_of_mem (mem_qualifying.mpr ⟨hu, huq⟩)
  obtain ⟨v, hv, -, -, hp⟩ := project_of_qualifying_ne_nil altitude_ cam horizon sheet rest hne
  have hs := hsign v (mem_qualifying.mp hv).1 (mem_qualifying.mp hv).2
  refine ⟨_, hp, ?_, ?_⟩
  · intro heq
    apply hs
    have h1 := congrArg projection.phi heq
    have h2 := congrArg projection.min_dist heq
    simp only [sentinel] at h1 h2
    rw [h1, h2]
    norm_num
  · exact hs

/-- Witness for C3, amended: the three sample vertices, all with positive
distance. -/
theorem project_below_horizon_valid_witness :
    (∃ v ∈ sample_sheet, line_coord sample_horizon v.x < v.y) ∧
    (∀ v ∈ sample_sheet, qualifies sample_horizon v →
      ¬ (sample_camera.phi v.x v.y < 0 ∧ vertex_dist 1 sample_camera v < 0)) ∧
    ∃ p, project 1 sample_camera sample_horizon [sample_sheet] = some p ∧
      p ≠ sentinel ∧ ¬ discarded p := by
  have h1 : ∃ v ∈ sample_sheet, line_coord sample_horizon v.x < v.y :=
    ⟨⟨50, 10⟩, by simp [sample_sheet], by norm_num [line_coord, sample_horizon]⟩
  have h2 : ∀ v ∈ sample_sheet, qualifies sample_horizon v →
      ¬ (sample_camera.phi v.x v.y < 0 ∧ vertex_dist 1 sample_camera v < 0) := by
    intro v hv _
    simp only [sample_sheet, List.mem_cons, List.mem_singleton, List.not_mem_nil, or_false] at hv
    rcases hv with rfl | rfl | rfl <;> norm_num [sample_camera, vertex_dist]
  exact ⟨h1, h2, project_below_horizon_valid 1 sample_camera sample_horizon sample_sheet [] h1 h2⟩

/-- C8: with `b = 0` the value of `line_coord` is 0 whatever `x`, `a` and
`c` are; with `b ≠ 0` it is `-(a/b)*x - c/b`, the point `(x, line_coord x)`
lies on `a*x + b*y + c = 0`, and two evaluations differ by
`-(a/b)*(x2 - x1)`. -/
theorem line_coord_affine (line : vgl_line_2d) (x x1 x2 : ℚ) :
    (line.b = 0 → line_coord line x = 0) ∧
    (line.b ≠ 0 →
      line_coord line x = -(line.a / line.b) * x - line.c / line.b ∧
      line.a * x + line.b * line_coord line x + line.c = 0 ∧
      line_coord line x2 - line_coord line x1 = -(line.a / line.b) * (x2 - x1)) := by
  constructor
  · intro hb
    simp [line_coord, hb]
  · intro hb
    simp only [line_coord, if_neg hb]
    refine ⟨by ring, ?_, by ring⟩
    field_simp
    ring

/-- Witness for C8: the vertical line `x = 2` (`b = 0`) and the line
`3*x + 5*y + 1 = 0`. -/
theorem line_coord_affine_witness :
    line_coord ⟨1, 0, -2⟩ 7 = 0 ∧
    (line_coord ⟨3, 5, 1⟩ 2 = -(3 / 5) * 2 - 1 / 5 ∧
      (3 : ℚ) * 2 + 5 * line_coord ⟨3, 5, 1⟩ 2 + 1 = 0 ∧
      line_coord ⟨3, 5, 1⟩ 4 - line_coord ⟨3, 5, 1⟩ 1 = -(3 / 5) * (4 - 1)) :=
  ⟨(line_coord_affine ⟨1, 0, -2⟩ 7 0 0).1 rfl,
   (line_coord_affine ⟨3, 5, 1⟩ 2 1 4).2 (by norm_num)⟩

/-! ## Facts about `parse_ref_object` and `create_conf_object` -/

theorem push_ref_names_eq (names : List vcl_string) (regions : List depth_map_region) :
    push_ref_names names regions =
      names ++ (regions.filter (fun r => r.is_ref)).map depth_map_region.name := by
  induction regions generalizing names with
  | nil => simp [push_ref_names]
  | cons r regions ih =>
    have h := ih (if r.is_ref then names ++ [r.name] else names)
    simp only [push_ref_names, List.foldl_cons] at h ⊢
    rw [h]
    cases hr : r.is_ref <;> simp [List.filter_cons, hr]

/-- The reference names collected from a scene. -/
theorem parse_ref_object_names (q : volm_conf_query) (dm : depth_map_scene) :
    (parse_ref_object q (some dm)).2.ref_obj_name_ =
      (dm.ground_plane.filter (fun r => r.is_ref)).map depth_map_region.name ++
      (dm.scene_regions.filter (fun r => r.is_ref)).map depth_map_region.name := by
  have h1 : (if dm.ground_plane.length ≠ 0 then push_ref_names [] dm.ground_plane else []) =
      (dm.ground_plane.filter (fun r => r.is_ref)).map depth_map_region.name := by
    split_ifs with h
    · simp [push_ref_names_eq]
    · have : dm.ground_plane = [] := List.length_eq_zero.mp (not_not.mp h)
      simp [this]
  have h2 : ∀ names : List vcl_string,
      (if dm.scene_regions.length ≠ 0 then push_ref_names names dm.scene_regions else names) =
      names ++ (dm.scene_regions.filter (fun r => r.is_ref)).map depth_map_region.name := by
    intro names
    split_ifs with h
    · simp [push_ref_names_eq]
    · have : dm.scene_regions = [] := List.length_eq_zero.mp (not_not.mp h)
      simp [this]
  simp only [parse_ref_object]
  rw [h1, h2]
  split_ifs <;> rfl

/-- The flag returned by `parse_ref_object` on a scene tells whether a name
was collected. -/
theorem parse_ref_object_flag (q : volm_conf_query) (dm : depth_map_scene) :
    (parse_ref_object q (some dm)).1 = !(parse_ref_object q (some dm)).2.ref_obj_name_.isEmpty := by
  simp only [parse_ref_object]
  split_ifs <;> simp_all

theorem conf_region_fold (altitude_ : ℚ) (pcam : vpgl_perspective_camera)
    (regions : List depth_map_region)
    (maps : vcl_map vcl_string volm_conf_object × vcl_map vcl_string (ℕ × ℕ)) :
    regions.foldlM (conf_region_step altitude_ pcam pcam.horizon) maps =
      some (vcl_map.insert_all depth_map_region.name (region_conf_object altitude_ pcam) maps.1
              (kept_regions altitude_ pcam regions),
            vcl_map.insert_all depth_map_region.name (region_pixel altitude_ pcam) maps.2
              (kept_regions altitude_ pcam regions)) := by
  induction regions generalizing maps with
  | nil => simp [kept_regions, vcl_map.insert_all]
  | cons r regions ih =>
    rw [List.foldlM_cons]
    by_cases hd : discarded (project_sheet altitude_ pcam pcam.horizon r.region_2d)
    · have hstep : conf_region_step altitude_ pcam pcam.horizon maps r = some maps := by
        have hd' := hd
        unfold discarded at hd'
        simp [conf_region_step, vgl_from_poly, project, hd']
      rw [hstep]
      simp only [Option.some_bind, ih]
      simp [kept_regions, List.filter_cons, hd]
    · have hstep : conf_region_step altitude_ pcam pcam.horizon maps r =
          some (vcl_map.insert r.name (region_conf_object altitude_ pcam r) maps.1,
                vcl_map.insert r.name (region_pixel altitude_ pcam r) maps.2) := by
        have hd' := hd
        unfold discarded at hd'
        simp only [conf_region_step, vgl_from_poly, project, if_neg hd']
        rfl
      rw [hstep]
      simp only [Option.some_bind, ih]
      simp [kept_regions, List.filter_cons, hd, vcl_map.insert_all]

theorem conf_camera_step_eq (q : volm_conf_query) (dm : depth_map_scene)
    (hdm : q.dm_ = some dm)
    (acc : List (vcl_map vcl_string volm_conf_object) × List (vcl_map vcl_string (ℕ × ℕ)))
    (cam_id : ℕ) (pcam : vpgl_perspective_camera) (hcam : q.cameras_[cam_id]? = some pcam)
    (hstr : cam_id < q.camera_strings_.length) :
    conf_camera_step q acc cam_id =
      some (acc.1 ++ [camera_conf_map q.altitude_ dm.scene_regions pcam],
            acc.2 ++ [camera_pixel_map q.altitude_ dm.scene_regions pcam]) := by
  have hs : q.camera_strings_[cam_id]? = some (q.camera_strings_[cam_id]) :=
    List.getElem?_eq_getElem hstr
  simp only [conf_camera_step, hs, hcam, hdm, conf_region_fold]
  rfl

theorem conf_camera_fold (q : volm_conf_query) (dm : depth_map_scene)
    (hdm : q.dm_ = some dm) (n : ℕ) (hn : n ≤ q.cameras_.length)
    (hs : n ≤ q.camera_strings_.length)
    (acc : List (vcl_map vcl_string volm_conf_object) × List (vcl_map vcl_string (ℕ × ℕ))) :
    (List.range n).foldlM (conf_camera_step q) acc =
      some (acc.1 ++ (q.cameras_.take n).map (camera_conf_map q.altitude_ dm.scene_regions),
            acc.2 ++ (q.cameras_.take n).map (camera_pixel_map q.altitude_ dm.scene_regions)) := by
  induction n with
  | zero => simp
  | succ n ih =>
    have hlt : n < q.cameras_.length := hn
    rw [List.range_succ, List.foldlM_append, ih (Nat.le_of_succ_le hn) (Nat.le_of_succ_le hs)]
    simp only [Option.bind_eq_bind, Option.some_bind, List.foldlM_cons, List.foldlM_nil]
    rw [conf_camera_step_eq q dm hdm _ n (q.cameras_[n]) (List.getElem?_eq_getElem hlt) hs]
    simp only [Option.some_bind, pure]
    have htake : q.cameras_.take (n + 1) = q.cameras_.take n ++ [q.cameras_[n]] := by
      rw [List.take_succ, List.getElem?_eq_getElem hlt]
      rfl
    rw [htake, List.map_append, List.map_append]
    simp only [List.map_cons, List.map_nil, List.append_assoc]

/-- What `create_conf_object` returns and leaves behind on a query whose
scene is set and whose camera count is within its camera vectors. -/
theorem create_conf_object_eq (q : volm_conf_query) (dm : depth_map_scene)
    (hdm : q.dm_ = some dm) (hn : q.ncam_ ≤ q.cameras_.length)
    (hs : q.ncam_ ≤ q.camera_strings_.length) :
    create_conf_object q =
      some (true, { q with
        conf_objects_ :=
          (q.cameras_.take q.ncam_).map (camera_conf_map q.altitude_ dm.scene_regions),
        conf_objects_pixels_ := q.conf_objects_pixels_ ++
          (q.cameras_.take q.ncam_).map (camera_pixel_map q.altitude_ dm.scene_regions) }) := by
  simp only [create_conf_object]
  rw [conf_camera_fold { q with conf_objects_ := [] } dm hdm q.ncam_ hn hs]
  simp

theorem mem_keys_camera_conf_map (altitude_ : ℚ) (regions : List depth_map_region)
    (pcam : vpgl_perspective_camera) (k : vcl_string) :
    k ∈ vcl_map.keys (camera_conf_map altitude_ regions pcam) ↔
      ∃ r ∈ kept_regions altitude_ pcam regions, r.name = k := by
  rw [camera_conf_map, vcl_map.mem_keys_insert_all]
  simp [vcl_map.keys]

theorem mem_keys_camera_pixel_map (altitude_ : ℚ) (regions : List depth_map_region)
    (pcam : vpgl_perspective_camera) (k : vcl_string) :
    k ∈ vcl_map.keys (camera_pixel_map altitude_ regions pcam) ↔
      ∃ r ∈ kept_regions altitude_ pcam regions, r.name = k := by
  rw [camera_pixel_map, vcl_map.mem_keys_insert_all]
  simp [vcl_map.keys]

theorem mem_kept_regions {altitude_ : ℚ} {pcam : vpgl_perspective_camera}
    {regions : List depth_map_region} {r : depth_map_region} :
    r ∈ kept_regions altitude_ pcam regions ↔
      r ∈ regions ∧ ¬ discarded (project_sheet altitude_ pcam pcam.horizon r.region_2d) := by
  simp [kept_regions]

/-- Under pairwise distinct region names, the entry of a region in the
configuration map of a camera. -/
theorem find_camera_conf_map (altitude_ : ℚ) (regions : List depth_map_region)
    (pcam : vpgl_perspective_camera) (hnd : (region_names regions).Nodup)
    (r : depth_map_region) (hr : r ∈ regions) :
    vcl_map.find r.name (camera_conf_map altitude_ regions pcam) =
      if discarded (project_sheet altitude_ pcam pcam.horizon r.region_2d) then none
      else some (region_conf_object altitude_ pcam r) := by
  have huniq : ∀ r' ∈ regions, r'.name = r.name → r' = r := by
    intro r' hr' hname
    exact List.inj_on_of_nodup_map hnd hr' hr hname
  rw [camera_conf_map, vcl_map.find_insert_all _ _ _ _ (by simp [vcl_map.ordered, vcl_map.keys])]
  simp only [vcl_map.find, Option.orElse]
  cases hf : List.find? _ (kept_regions altitude_ pcam regions) with
  | none =>
    have hnone := List.find?_eq_none.mp hf
    have hd : discarded (project_sheet altitude_ pcam pcam.horizon r.region_2d) := by
      by_contra hd
      exact hnone r (mem_kept_regions.mpr ⟨hr, hd⟩) (by simp)
    simp [hd]
  | some r' =>
    have hmem := List.mem_of_find?_eq_some hf
    have hname : r'.name = r.name := by simpa using List.find?_some hf
    have := huniq r' (mem_kept_regions.mp hmem).1 hname
    subst this
    simp [(mem_kept_regions.mp hmem).2]

/-- C4: on a query with its scene set and its camera count within its
camera vectors, `create_conf_object` returns, and afterwards every key of
every configuration map is the name of a scene region; so is every key of
every pixel map, provided this held of the pixel maps present before the
call (none at construction).  The name of a ground-plane region that is not
also the name of a scene region is a key of no map. -/
theorem create_conf_object_keys_are_scene_regions (q : volm_conf_query) (dm : depth_map_scene)
    (hdm : q.dm_ = some dm) (hn : q.ncam_ ≤ q.cameras_.length)
    (hs : q.ncam_ ≤ q.camera_strings_.length)
    (hold : ∀ m ∈ q.conf_objects_pixels_, ∀ k ∈ vcl_map.keys m, k ∈ region_names dm.scene_regions) :
    ∃ q', create_conf_object q = some (true, q') ∧
      (∀ m ∈ q'.conf_objects_, ∀ k ∈ vcl_map.keys m, k ∈ region_names dm.scene_regions) ∧
      (∀ m ∈ q'.conf_objects_pixels_, ∀ k ∈ vcl_map.keys m, k ∈ region_names dm.scene_regions) ∧
      (∀ g ∈ dm.ground_plane, g.name ∉ region_names dm.scene_regions →
        (∀ m ∈ q'.conf_objects_, g.name ∉ vcl_map.keys m) ∧
        (∀ m ∈ q'.conf_objects_pixels_, g.name ∉ vcl_map.keys m)) := by
  have hobj : ∀ m ∈ (q.cameras_.take q.ncam_).map (camera_conf_map q.altitude_ dm.scene_regions),
      ∀ k ∈ vcl_map.keys m, k ∈ region_names dm.scene_regions := by
    intro m hm k hk
    obtain ⟨pcam, -, rfl⟩ := List.mem_map.mp hm
    obtain ⟨r, hr, rfl⟩ := (mem_keys_camera_conf_map _ _ _ _).mp hk
    exact List.mem_map.mpr ⟨r, (mem_kept_regions.mp hr).1, rfl⟩
  have hpix : ∀ m ∈ q.conf_objects_pixels_ ++
        (q.cameras_.take q.ncam_).map (camera_pixel_map q.altitude_ dm.scene_regions),
      ∀ k ∈ vcl_map.keys m, k ∈ region_names dm.scene_regions := by
    intro m hm k hk
    rcases List.mem_append.mp hm with hm | hm
    · exact hold m hm k hk
    · obtain ⟨pcam, -, rfl⟩ := List.mem_map.mp hm
      obtain ⟨r, hr, rfl⟩ := (mem_keys_camera_pixel_map _ _ _ _).mp hk
      exact List.mem_map.mpr ⟨r, (mem_kept_regions.mp hr).1, rfl⟩
  refine ⟨_, create_conf_object_eq q dm hdm hn hs, hobj, hpix, ?_⟩
  intro g _ hg
  exact ⟨fun m hm hk => hg (hobj m hm _ hk), fun m hm hk => hg (hpix m hm _ hk)⟩

/-- Witness for C4: the sample query, whose scene has the ground-plane
region `ground` and the scene regions `building` and `tower`. -/
theorem create_conf_object_keys_are_scene_regions_witness :
    ∃ q', create_conf_object sample_query = some (true, q') ∧
      (∀ m ∈ q'.conf_objects_, ∀ k ∈ vcl_map.keys m, k ∈ region_names sample_scene.scene_regions) ∧
      (∀ m ∈ q'.conf_objects_pixels_, ∀ k ∈ vcl_map.keys m,
        k ∈ region_names sample_scene.scene_regions) ∧
      (∀ g ∈ sample_scene.ground_plane, g.name ∉ region_names sample_scene.scene_regions →
        (∀ m ∈ q'.conf_objects_, g.name ∉ vcl_map.keys m) ∧
        (∀ m ∈ q'.conf_objects_pixels_, g.name ∉ vcl_map.keys m)) :=
  create_conf_object_keys_are_scene_regions sample_query sample_scene rfl
    (by simp [sample_query]) (by simp [sample_query]) (by simp [sample_query])

/-- C5, counterexample: for the one region of `negative_scene`, whose name is
trivially distinct, `project` returns `(-3, -1/2, 20, 32)`, which is not
`(-1, -1, 0, 0)`; `create_conf_object` nevertheless leaves the configuration
map of the camera empty, with no entry under the region's name, because the
bearing and the distance are both negative. -/
theorem create_conf_object_omits_non_sentinel_projection :
    (region_names negative_scene.scene_regions).Nodup ∧
    negative_region ∈ negative_scene.scene_regions ∧
    project negative_query.altitude_ negative_camera negative_camera.horizon
      (vgl_from_poly negative_region.region_2d) = some ⟨-3, -1 / 2, 20, 32⟩ ∧
    (⟨-3, -1 / 2, 20, 32⟩ : projection) ≠ sentinel ∧
    ∃ q', create_conf_object negative_query = some (true, q') ∧
      q'.conf_objects_ = [[]] ∧
      ∀ m ∈ q'.conf_objects_, vcl_map.find negative_region.name m = none := by
  have hh : negative_camera.horizon = sample_horizon := rfl
  have hp : project_sheet 1 negative_camera sample_horizon [⟨20, 32⟩] =
      ⟨-3, -1 / 2, 20, 32⟩ := by
    norm_num [project_sheet, negative_camera, sample_horizon, project_step, line_coord,
      vcl_map.insert, vcl_map.index, vcl_map.find, to_unsigned]
    exact ⟨rfl, rfl⟩
  have hd : discarded (⟨-3, -1 / 2, 20, 32⟩ : projection) := by norm_num [discarded]
  have hkept : kept_regions 1 negative_camera [negative_region] = [] := by
    simp only [kept_regions, List.filter_cons, List.filter_nil, negative_region, hh, hp]
    simp [hd]
  have hobj : camera_conf_map 1 [negative_region] negative_camera = [] := by
    rw [camera_conf_map, hkept]
    rfl
  refine ⟨by simp [region_names, negative_scene], by simp [negative_scene], ?_, ?_, ?_⟩
  · show some (project_sheet 1 negative_camera negative_camera.horizon [⟨20, 32⟩]) = _
    rw [hh, hp]
  · intro h
    have := congrArg projection.min_dist h
    norm_num [sentinel] at this
  · refine ⟨_, create_conf_object_eq negative_query negative_scene rfl
      (by simp [negative_query]) (by simp [negative_query]), ?_, ?_⟩
    · simp [negative_query, negative_scene, hobj]
    · intro m hm
      have hm' : m = [] := by
        simpa [negative_query, negative_scene, hobj] using hm
      rw [hm']
      rfl

/-- C5, amended: with pairwise distinct scene-region names,
`create_conf_object` returns one configuration map per camera, and in the map
of each camera a scene region has an entry under its name exactly when the
result of `project` for that camera and region passes the caller's test, that
is, unless its bearing and its distance are both negative; the entry is the
object built from the returned bearing, the returned distance and the
region's land class.  A region whose projection is `(-1, -1, 0, 0)` has no
entry. -/
theorem create_conf_object_entry_iff_valid (q : volm_conf_query) (dm : depth_map_scene)
    (hdm : q.dm_ = some dm) (hn : q.ncam_ ≤ q.cameras_.length)
    (hs : q.ncam_ ≤ q.camera_strings_.length)
    (hnd : (region_names dm.scene_regions).Nodup) :
    ∃ q', create_conf_object q = some (true, q') ∧
      q'.conf_objects_.length = q.ncam_ ∧
      ∀ (cam_id : ℕ) (pcam : vpgl_perspective_camera) (m : vcl_map vcl_string volm_conf_object),
        q.cameras_[cam_id]? = some pcam → q'.conf_objects_[cam_id]? = some m →
        ∀ r ∈ dm.scene_regions,
          ∃ p, project q.altitude_ pcam pcam.horizon (vgl_from_poly r.region_2d) = some p ∧
            ((∃ obj, vcl_map.find r.name m = some obj) ↔ ¬ discarded p) ∧
            (¬ discarded p →
              vcl_map.find r.name m = some (volm_conf_object.mk p.phi p.min_dist r.land_id)) ∧
            (p = sentinel → vcl_map.find r.name m = none) := by
  refine ⟨_, create_conf_object_eq q dm hdm hn hs, ?_, ?_⟩
  · simp [List.length_take, hn]
  · intro cam_id pcam m hcam hm r hr
    have hm' : m = camera_conf_map q.altitude_ dm.scene_regions pcam := by
      simp only [List.getElem?_map, List.getElem?_take] at hm
      split_ifs at hm with hlt
      · rw [hcam] at hm
        simpa using hm.symm
      · simp at hm
    subst hm'
    refine ⟨project_sheet q.altitude_ pcam pcam.horizon r.region_2d, rfl, ?_, ?_, ?_⟩
    · rw [find_camera_conf_map _ _ _ hnd r hr]
      split_ifs with hd <;> simp [hd]
    · intro hd
      rw [find_camera_conf_map _ _ _ hnd r hr, if_neg hd]
      rfl
    · intro hp
      rw [find_camera_conf_map _ _ _ hnd r hr, hp]
      have : discarded sentinel := by norm_num [discarded, sentinel]
      rw [if_pos this]

/-- Witness for C5, amended: the sample query; `building` gets the entry
`(3/10, 2, 15)` and `tower`, above the horizon, gets none. -/
theorem create_conf_object_entry_iff_valid_witness :
    (region_names sample_scene.scene_regions).Nodup ∧
    ∃ q', create_conf_object sample_query = some (true, q') ∧
      q'.conf_objects_.length = sample_query.ncam_ ∧
      ∀ (cam_id : ℕ) (pcam : vpgl_perspective_camera) (m : vcl_map vcl_string volm_conf_object),
        sample_query.cameras_[cam_id]? = some pcam → q'.conf_objects_[cam_id]? = some m →
        ∀ r ∈ sample_scene.scene_regions,
          ∃ p, project sample_query.altitude_ pcam pcam.horizon (vgl_from_poly r.region_2d) = some p ∧
            ((∃ obj, vcl_map.find r.name m = some obj) ↔ ¬ discarded p) ∧
            (¬ discarded p →
              vcl_map.find r.name m = some (volm_conf_object.mk p.phi p.min_dist r.land_id)) ∧
            (p = sentinel → vcl_map.find r.name m = none) := by
  have hnd : (region_names sample_scene.scene_regions).Nodup := by
    simp [region_names, sample_scene, sample_building, sample_tower]
  exact ⟨hnd, create_conf_object_entry_iff_valid sample_query sample_scene rfl
    (by simp [sample_query]) (by simp [sample_query]) hnd⟩

/-- C6: on a non-null scene, `parse_ref_object` leaves as reference-name
list the names of the flagged ground-plane regions in list order followed by
the names of the flagged scene regions in list order, whatever the list held
before. -/
theorem parse_ref_object_collects_flagged_names (q : volm_conf_query) (dm : depth_map_scene) :
    (parse_ref_object q (some dm)).2.ref_obj_name_ =
      (dm.ground_plane.filter (fun r => r.is_ref)).map depth_map_region.name ++
      (dm.scene_regions.filter (fun r => r.is_ref)).map depth_map_region.name :=
  parse_ref_object_names q dm

/-- C7: `parse_ref_object` returns `false` exactly when the scene is null or
no region of the ground-plane list and of the scene-region list is flagged;
when it returns `true` the reference-name list is not empty. -/
theorem parse_ref_object_fails_iff (q : volm_conf_query) (dm : Option depth_map_scene) :
    ((parse_ref_object q dm).1 = false ↔
      (dm = none ∨ ∃ d, dm = some d ∧
        (∀ r ∈ d.ground_plane, r.is_ref = false) ∧ ∀ r ∈ d.scene_regions, r.is_ref = false)) ∧
    ((parse_ref_object q dm).1 = true → (parse_ref_object q dm).2.ref_obj_name_ ≠ []) := by
  cases dm with
  | none => simp [parse_ref_object]
  | some d =>
    have hflag := parse_ref_object_flag q d
    have hnames := parse_ref_object_names q d
    constructor
    · rw [hflag, hnames]
      simp [List.isEmpty_iff, List.filter_eq_nil_iff]
    · intro h
      rw [hflag] at h
      intro hnil
      rw [hnil] at h
      simp at h

/-- Witness for C7: the sample scene has the flagged region `building`, the
call succeeds and collects its name. -/
theorem parse_ref_object_fails_iff_witness :
    (parse_ref_object sample_query (some sample_scene)).1 = true ∧
    (parse_ref_object sample_query (some sample_scene)).2.ref_obj_name_ = ["building"] ∧
    (parse_ref_object sample_query (some sample_scene)).2.ref_obj_name_ ≠ [] ∧
    (parse_ref_object sample_query none).1 = false := by
  have h1 : (parse_ref_object sample_query (some sample_scene)).1 = true := by
    simp [parse_ref_object, sample_scene, push_ref_names, sample_ground, sample_building,
      sample_tower]
  refine ⟨h1, ?_, (parse_ref_object_fails_iff sample_query (some sample_scene)).2 h1,
    (parse_ref_object_fails_iff sample_query none).1.mpr (Or.inl rfl)⟩
  simp [parse_ref_object, sample_scene, push_ref_names, sample_ground, sample_building,
    sample_tower]

/-- C10, the code at the failing input: on the sample query (one camera, no
pixel map yet) a first call of `create_conf_object` leaves one configuration
map and one pixel map; a second call on the resulting state leaves one
configuration map and two pixel maps, the stale one still in front. -/
theorem create_conf_object_twice_keeps_stale_pixel_maps :
    ∃ q1 q2, create_conf_object sample_query = some (true, q1) ∧
      create_conf_object q1 = some (true, q2) ∧
      q1.ncam_ = 1 ∧ q1.conf_objects_ = [[("building", ⟨3 / 10, 2, 15⟩)]] ∧
      q1.conf_objects_pixels_ = [[("building", (20, 30))]] ∧
      q2.ncam_ = 1 ∧ q2.conf_objects_ = [[("building", ⟨3 / 10, 2, 15⟩)]] ∧
      q2.conf_objects_pixels_ = [[("building", (20, 30))], [("building", (20, 30))]] := by
  have hb : project_sheet 1 sample_camera sample_horizon sample_sheet = ⟨2, 3 / 10, 20, 30⟩ := by
    norm_num [project_sheet, sample_sheet, sample_camera, sample_horizon, project_step,
      line_coord, vcl_map.insert, vcl_map.index, vcl_map.find, to_unsigned]
    exact ⟨rfl, rfl⟩
  have ht : project_sheet 1 sample_camera sample_horizon [⟨3, -2⟩] = ⟨-1, -1, 0, 0⟩ := by
    norm_num [project_sheet, sample_camera, sample_horizon, project_step, line_coord]
  have hh : sample_camera.horizon = sample_horizon := rfl
  have hkept : kept_regions 1 sample_camera [sample_building, sample_tower] = [sample_building] := by
    have h1 : ¬ discarded (⟨2, 3 / 10, 20, 30⟩ : projection) := by norm_num [discarded]
    have h2 : discarded (⟨-1, -1, 0, 0⟩ : projection) := by norm_num [discarded]
    simp only [kept_regions, List.filter_cons, List.filter_nil, sample_building, sample_tower,
      hh, hb, ht]
    simp [h1, h2]
  have hobj : camera_conf_map 1 [sample_building, sample_tower] sample_camera =
      [("building", ⟨3 / 10, 2, 15⟩)] := by
    rw [camera_conf_map, hkept]
    simp only [vcl_map.insert_all, List.foldl_cons, List.foldl_nil,
      vcl_map.insert, region_conf_object, sample_building, hh, hb]
  have hpix : camera_pixel_map 1 [sample_building, sample_tower] sample_camera =
      [("building", (20, 30))] := by
    rw [camera_pixel_map, hkept]
    simp only [vcl_map.insert_all, List.foldl_cons, List.foldl_nil,
      vcl_map.insert, region_pixel, sample_building, hh, hb]
  refine ⟨_, _, create_conf_object_eq sample_query sample_scene rfl (by simp [sample_query])
    (by simp [sample_query]), create_conf_object_eq _ sample_scene rfl (by simp [sample_query])
    (by simp [sample_query]), ?_⟩
  simp [sample_query, sample_scene, hobj, hpix]

/-! ## Facts about the stamping primitives -/

theorem to_int_le (n : ℕ) : to_int n ≤ (n : ℤ) := by
  unfold to_int
  have h := Nat.mod_le n 4294967296
  split_ifs <;> omega

theorem to_int_of_lt {n : ℕ} (h : n < 2147483648) : to_int n = (n : ℤ) := by
  unfold to_int
  have h1 : n % 4294967296 = n := Nat.mod_eq_of_lt (by omega)
  rw [h1, if_pos h]

theorem mem_span_columns (s : scan_span) (x : ℤ) :
    x ∈ span_columns s ↔ s.startx ≤ x ∧ x ≤ s.endx := by
  unfold span_columns
  rw [List.mem_map]
  constructor
  · rintro ⟨k, hk, rfl⟩
    rw [List.mem_range] at hk
    omega
  · rintro ⟨h1, h2⟩
    refine ⟨(x - s.startx).toNat, ?_, ?_⟩
    · rw [List.mem_range]
      omega
    · omega

theorem plot_pixel_painted (rgb : vil_rgb) (y x : ℤ) (image : vil_image_view) :
    ∃ img', plot_pixel rgb y image x = some img' ∧
      painted rgb (hit image.ni image.nj y x) image img' := by
  unfold plot_pixel
  split_ifs with hg
  · have hx : x.toNat < image.ni := by
      have := to_int_le image.ni
      omega
    have hy : y.toNat < image.nj := by
      have := to_int_le image.nj
      omega
    refine ⟨{ image with pixel := fun i' j' =>
        if i' = x.toNat ∧ j' = y.toNat then rgb else image.pixel i' j' },
      by simp only [vil_image_view.assign, if_pos (And.intro hx hy)], rfl, rfl, ?_⟩
    intro i j
    constructor
    · rintro ⟨-, rfl, rfl⟩
      simp
    · intro hn
      have : ¬ (i = x.toNat ∧ j = y.toNat) := fun h => hn ⟨hg, h.1.symm, h.2.symm⟩
      simp [this]
  · refine ⟨image, rfl, rfl, rfl, ?_⟩
    intro i j
    exact ⟨fun h => absurd h.1 hg, fun _ => rfl⟩

/-- A loop whose every pass paints a set of pixels paints their union. -/
theorem foldlM_painted {α : Type} (rgb : vil_rgb) (ni nj : ℕ)
    (step : vil_image_view → α → Option vil_image_view) (W : α → ℕ → ℕ → Prop)
    (l : List α)
    (hstep : ∀ image a, a ∈ l → image.ni = ni → image.nj = nj →
      ∃ img', step image a = some img' ∧ painted rgb (W a) image img')
    (image : vil_image_view) (hni : image.ni = ni) (hnj : image.nj = nj) :
    ∃ img', l.foldlM step image = some img' ∧
      painted rgb (fun i j => ∃ a ∈ l, W a i j) image img' := by
  induction l generalizing image with
  | nil =>
    refine ⟨image, rfl, rfl, rfl, ?_⟩
    intro i j
    simp
  | cons a l ih =>
    obtain ⟨img1, h1, hn1, hm1, hp1⟩ := hstep image a (List.mem_cons_self _ _) hni hnj
    obtain ⟨img2, h2, hn2, hm2, hp2⟩ :=
      ih (fun im b hb => hstep im b (List.mem_cons_of_mem _ hb)) img1
        (hn1.trans hni) (hm1.trans hnj)
    refine ⟨img2, ?_, hn2.trans hn1, hm2.trans hm1, ?_⟩
    · rw [List.foldlM_cons, h1]
      exact h2
    · intro i j
      by_cases hl : ∃ a' ∈ l, W a' i j
      · refine ⟨fun _ => (hp2 i j).1 hl, fun hn => ?_⟩
        obtain ⟨a', ha', hw⟩ := hl
        exact absurd ⟨a', List.mem_cons_of_mem _ ha', hw⟩ hn
      · rw [(hp2 i j).2 hl]
        constructor
        · rintro ⟨a', ha', hw⟩
          rcases List.mem_cons.mp ha' with rfl | ha''
          · exact (hp1 i j).1 hw
          · exact absurd ⟨a', ha'', hw⟩ hl
        · intro hn
          exact (hp1 i j).2 (fun hw => hn ⟨a, List.mem_cons_self _ _, hw⟩)

/-- The inner loop at a position where it exits returns, and paints exactly
the pixels that some column of the span addresses with the guard satisfied. -/
theorem plot_span_painted (rgb : vil_rgb) (image : vil_image_view) (s : scan_span)
    (hs : s.endx < s.startx ∨ s.endx < 2147483647) :
    ∃ img', plot_span rgb image s = some img' ∧
      painted rgb (fun i j => ∃ x ∈ span_columns s, hit image.ni image.nj s.scany x i j)
        image img' := by
  have hexit : ¬ (s.startx ≤ s.endx ∧ 2147483647 ≤ s.endx) := by omega
  unfold plot_span
  rw [if_neg hexit]
  exact foldlM_painted rgb image.ni image.nj (plot_pixel rgb s.scany)
    (fun x => hit image.ni image.nj s.scany x) (span_columns s)
    (fun img2 x _ hni2 hnj2 => by
      have := plot_pixel_painted rgb s.scany x img2
      rwa [hni2, hnj2] at this)
    image rfl rfl

/-- The inner loop at a position where it is entered with `endx()` equal to
`INT_MAX` or more has no defined result. -/
theorem plot_span_overflow (rgb : vil_rgb) (image : vil_image_view) (s : scan_span)
    (h1 : s.startx ≤ s.endx) (h2 : 2147483647 ≤ s.endx) :
    plot_span rgb image s = none := by
  unfold plot_span
  rw [if_pos ⟨h1, h2⟩]

/-- The scan loop over positions at which the inner loop exits returns, and
paints exactly the pixels that some column of some span addresses with the
guard satisfied. -/
theorem plot_spans_painted (image : vil_image_view) (spans : List scan_span) (r g b : ℕ)
    (hspans : ∀ s ∈ spans, s.endx < s.startx ∨ s.endx < 2147483647) :
    ∃ img', plot_spans image spans r g b = some img' ∧
      painted ⟨r, g, b⟩
        (fun i j => ∃ s ∈ spans, ∃ x ∈ span_columns s, hit image.ni image.nj s.scany x i j)
        image img' := by
  unfold plot_spans
  exact foldlM_painted ⟨r, g, b⟩ image.ni image.nj (plot_span ⟨r, g, b⟩)
    (fun s i j => ∃ x ∈ span_columns s, hit image.ni image.nj s.scany x i j) spans
    (fun img s hmem hni hnj => by
      have := plot_span_painted ⟨r, g, b⟩ img s (hspans s hmem)
      rwa [hni, hnj] at this)
    image rfl rfl

theorem covered_of_hit {ni nj : ℕ} {spans : List scan_span} {i j : ℕ}
    (h : ∃ s ∈ spans, ∃ x ∈ span_columns s, hit ni nj s.scany x i j) :
    i < ni ∧ j < nj ∧ covered spans i j := by
  obtain ⟨s, hs, x, hx, ⟨hx0, hy0, hxn, hyn⟩, rfl, rfl⟩ := h
  have h1 := to_int_le ni
  have h2 := to_int_le nj
  have hc := (mem_span_columns s x).mp hx
  refine ⟨by omega, by omega, s, hs, by omega, by omega, by omega⟩

theorem hit_of_covered {ni nj : ℕ} {spans : List scan_span} {i j : ℕ}
    (hni : ni < 2147483648) (hnj : nj < 2147483648) (hi : i < ni) (hj : j < nj)
    (hc : covered spans i j) :
    ∃ s ∈ spans, ∃ x ∈ span_columns s, hit ni nj s.scany x i j := by
  obtain ⟨s, hs, hy, h1, h2⟩ := hc
  refine ⟨s, hs, (i : ℤ), (mem_span_columns s _).mpr ⟨h1, h2⟩, ⟨?_, ?_, ?_, ?_⟩, ?_, ?_⟩
  · omega
  · omega
  · rw [to_int_of_lt hni]; omega
  · rw [to_int_of_lt hnj]; omega
  · simp
  · rw [hy]; simp

/-- The scan loop on any image and any spans at which the inner loop exits:
it returns, keeps the size, changes no pixel that is out of the image or on
no span, and, when both sizes are below `2 ^ 31`, gives every pixel of the
image on a span the colour. -/
theorem plot_spans_clipped (image : vil_image_view) (spans : List scan_span) (r g b : ℕ)
    (hspans : ∀ s ∈ spans, s.endx < s.startx ∨ s.endx < 2147483647) :
    ∃ img', plot_spans image spans r g b = some img' ∧
      img'.ni = image.ni ∧ img'.nj = image.nj ∧
      (∀ i j, ¬ (i < image.ni ∧ j < image.nj ∧ covered spans i j) →
        img'.pixel i j = image.pixel i j) ∧
      (∀ i j, img'.pixel i j = ⟨r, g, b⟩ ∨ img'.pixel i j = image.pixel i j) ∧
      (image.ni < 2147483648 → image.nj < 2147483648 →
        ∀ i j, i < image.ni → j < image.nj → covered spans i j →
          img'.pixel i j = ⟨r, g, b⟩) := by
  obtain ⟨img', h, hni, hnj, hp⟩ := plot_spans_painted image spans r g b hspans
  refine ⟨img', h, hni, hnj, ?_, ?_, ?_⟩
  · intro i j hn
    exact (hp i j).2 (fun hh => hn (covered_of_hit hh))
  · intro i j
    by_cases hh : ∃ s ∈ spans, ∃ x ∈ span_columns s, hit image.ni image.nj s.scany x i j
    · exact Or.inl ((hp i j).1 hh)
    · exact Or.inr ((hp i j).2 hh)
  · intro h1 h2 i j hi hj hc
    exact (hp i j).1 (hit_of_covered h1 h2 hi hj hc)

/-- C9, counterexample.  First, in the image of `2 ^ 31` columns and 1 row
the pixel `(0, 0)` is inside the image and on the span the iterator visits,
yet both primitives return with that pixel still black: `(int)image.ni()` is
negative and the guard fails for every column.  Second, on the span of row 0
from column `INT_MAX - 1` to column `INT_MAX` neither primitive has a defined
result on the black 2 by 2 image: the inner loop can not exit and its counter
overflows. -/
theorem plot_into_image_wide_image_and_counter_overflow :
    ((0 < wide_image.ni ∧ 0 < wide_image.nj ∧
      covered (sample_library.scan (sample_library.expend_line [] 1)) 0 0 ∧
      covered (sample_library.scan (dot_polygon sample_library ⟨0, 0⟩ 1)) 0 0) ∧
    (∃ img', plot_line_into_image sample_library wide_image [] 255 255 255 1 = some img' ∧
      img'.pixel 0 0 = ⟨0, 0, 0⟩ ∧ img'.pixel 0 0 ≠ ⟨255, 255, 255⟩) ∧
    (∃ img', plot_dot_into_image sample_library wide_image ⟨0, 0⟩ 255 255 255 1 = some img' ∧
      img'.pixel 0 0 = ⟨0, 0, 0⟩ ∧ img'.pixel 0 0 ≠ ⟨255, 255, 255⟩)) ∧
    (overflow_library.scan (overflow_library.expend_line [] 1) =
        [⟨0, 2147483646, 2147483647⟩] ∧
      plot_line_into_image overflow_library small_image [] 255 255 255 1 = none ∧
      plot_dot_into_image overflow_library small_image ⟨0, 0⟩ 255 255 255 1 = none) := by
  have hneg : to_int wide_image.ni = -2147483648 := by decide
  have hno : ∀ spans : List scan_span,
      ¬ ∃ s ∈ spans, ∃ x ∈ span_columns s, hit wide_image.ni wide_image.nj s.scany x 0 0 := by
    rintro spans ⟨s, -, x, -, ⟨h0, -, hlt, -⟩, -⟩
    rw [hneg] at hlt
    omega
  have hexits : ∀ s ∈ [(⟨0, -2, 3⟩ : scan_span)], s.endx < s.startx ∨ s.endx < 2147483647 := by
    intro s hs
    rw [List.mem_singleton.mp hs]
    decide
  have hall : ∃ img', plot_spans wide_image [⟨0, -2, 3⟩] 255 255 255 = some img' ∧
        img'.pixel 0 0 = ⟨0, 0, 0⟩ ∧ img'.pixel 0 0 ≠ ⟨255, 255, 255⟩ := by
    obtain ⟨img', h, -, -, hp⟩ := plot_spans_painted wide_image [⟨0, -2, 3⟩] 255 255 255 hexits
    have hpix : img'.pixel 0 0 = ⟨0, 0, 0⟩ := (hp 0 0).2 (hno _)
    refine ⟨img', h, hpix, ?_⟩
    rw [hpix]
    decide
  have hcov : covered [(⟨0, -2, 3⟩ : scan_span)] 0 0 :=
    ⟨⟨0, -2, 3⟩, List.mem_singleton.mpr rfl, by decide, by decide, by decide⟩
  have hover : plot_spans small_image [⟨0, 2147483646, 2147483647⟩] 255 255 255 = none := by
    unfold plot_spans
    rw [List.foldlM_cons,
      plot_span_overflow ⟨255, 255, 255⟩ small_image ⟨0, 2147483646, 2147483647⟩
        (by decide) (by decide)]
    rfl
  exact ⟨⟨⟨by decide, by decide, hcov, hcov⟩, hall, hall⟩, rfl, hover, hover⟩

/-- C9, amended: on every image and for every sequence of spans the iterator
yields in which each span is empty (`endx < startx`) or ends below `INT_MAX`,
`plot_line_into_image` and `plot_dot_into_image` return without an access
outside the image, keep the size and leave unchanged every pixel that is
outside the image or on no span; when `ni` and `nj` are both at most
`2 ^ 31 - 1`, every pixel of the image lying on a span is set to
`(r, g, b)`. -/
theorem plot_into_image_clipped (lib : raster_library) (image : vil_image_view)
    (line : List vgl_point_2d) (pt : vgl_point_2d) (r g b : ℕ) (width radius : ℚ) :
    ((∀ s ∈ lib.scan (lib.expend_line line width),
        s.endx < s.startx ∨ s.endx < 2147483647) →
      ∃ img', plot_line_into_image lib image line r g b width = some img' ∧
        img'.ni = image.ni ∧ img'.nj = image.nj ∧
        (∀ i j, ¬ (i < image.ni ∧ j < image.nj ∧
            covered (lib.scan (lib.expend_line line width)) i j) →
          img'.pixel i j = image.pixel i j) ∧
        (image.ni < 2147483648 → image.nj < 2147483648 →
          ∀ i j, i < image.ni → j < image.nj →
            covered (lib.scan (lib.expend_line line width)) i j →
            img'.pixel i j = ⟨r, g, b⟩)) ∧
    ((∀ s ∈ lib.scan (dot_polygon lib pt radius),
        s.endx < s.startx ∨ s.endx < 2147483647) →
      ∃ img', plot_dot_into_image lib image pt r g b radius = some img' ∧
        img'.ni = image.ni ∧ img'.nj = image.nj ∧
        (∀ i j, ¬ (i < image.ni ∧ j < image.nj ∧
            covered (lib.scan (dot_polygon lib pt radius)) i j) →
          img'.pixel i j = image.pixel i j) ∧
        (image.ni < 2147483648 → image.nj < 2147483648 →
          ∀ i j, i < image.ni → j < image.nj →
            covered (lib.scan (dot_polygon lib pt radius)) i j →
            img'.pixel i j = ⟨r, g, b⟩)) := by
  constructor
  · intro hspans
    obtain ⟨img', h, hni, hnj, hun, -, hset⟩ :=
      plot_spans_clipped image (lib.scan (lib.expend_line line width)) r g b hspans
    exact ⟨img', h, hni, hnj, hun, hset⟩
  · intro hspans
    obtain ⟨img', h, hni, hnj, hun, -, hset⟩ :=
      plot_spans_clipped image (lib.scan (dot_polygon lib pt radius)) r g b hspans
    exact ⟨img', h, hni, hnj, hun, hset⟩

/-- Witness for C9, amended: the span of row 0 from column -2 to column 3 on
the black 2 by 2 image; the pixels `(0, 0)` and `(1, 0)` turn white, the
pixel `(0, 1)` and the position `(2, 0)` beyond the edge keep their value. -/
theorem plot_into_image_clipped_witness :
    (small_image.ni < 2147483648 ∧ small_image.nj < 2147483648) ∧
    (∀ s ∈ sample_library.scan (sample_library.expend_line [] 1),
      s.endx < s.startx ∨ s.endx < 2147483647) ∧
    (∀ s ∈ sample_library.scan (dot_polygon sample_library ⟨0, 0⟩ 1),
      s.endx < s.startx ∨ s.endx < 2147483647) ∧
    (∃ img', plot_line_into_image sample_library small_image [] 255 255 255 1 = some img' ∧
      img'.ni = 2 ∧ img'.nj = 2 ∧
      img'.pixel 0 0 = ⟨255, 255, 255⟩ ∧ img'.pixel 1 0 = ⟨255, 255, 255⟩ ∧
      img'.pixel 0 1 = ⟨0, 0, 0⟩ ∧ img'.pixel 2 0 = ⟨0, 0, 0⟩) ∧
    (∃ img', plot_dot_into_image sample_library small_image ⟨0, 0⟩ 255 255 255 1 = some img' ∧
      img'.ni = 2 ∧ img'.nj = 2 ∧
      img'.pixel 0 0 = ⟨255, 255, 255⟩ ∧ img'.pixel 1 0 = ⟨255, 255, 255⟩ ∧
      img'.pixel 0 1 = ⟨0, 0, 0⟩ ∧ img'.pixel 2 0 = ⟨0, 0, 0⟩) := by
  have hni : small_image.ni < 2147483648 := by decide
  have hnj : small_image.nj < 2147483648 := by decide
  have hexits : ∀ s ∈ [(⟨0, -2, 3⟩ : scan_span)], s.endx < s.startx ∨ s.endx < 2147483647 := by
    intro s hs
    rw [List.mem_singleton.mp hs]
    decide
  have hc0 : covered [(⟨0, -2, 3⟩ : scan_span)] 0 0 :=
    ⟨⟨0, -2, 3⟩, List.mem_singleton.mpr rfl, by decide, by decide, by decide⟩
  have hc1 : covered [(⟨0, -2, 3⟩ : scan_span)] 1 0 :=
    ⟨⟨0, -2, 3⟩, List.mem_singleton.mpr rfl, by decide, by decide, by decide⟩
  have hn01 : ¬ (0 < small_image.ni ∧ 1 < small_image.nj ∧
      covered [(⟨0, -2, 3⟩ : scan_span)] 0 1) := by
    rintro ⟨-, -, s, hs, hy, -⟩
    rw [List.mem_singleton.mp hs] at hy
    exact absurd hy (by decide)
  have hn20 : ¬ (2 < small_image.ni ∧ 0 < small_image.nj ∧
      covered [(⟨0, -2, 3⟩ : scan_span)] 2 0) := by
    rintro ⟨h, -⟩
    exact absurd h (by decide)
  have hboth := plot_into_image_clipped sample_library small_image [] ⟨0, 0⟩ 255 255 255 1 1
  obtain ⟨im1, h1, hni1, hnj1, hun1, hset1⟩ := hboth.1 hexits
  obtain ⟨im2, h2, hni2, hnj2, hun2, hset2⟩ := hboth.2 hexits
  refine ⟨⟨hni, hnj⟩, hexits, hexits, ⟨im1, h1, hni1, hnj1, ?_, ?_, ?_, ?_⟩,
    ⟨im2, h2, hni2, hnj2, ?_, ?_, ?_, ?_⟩⟩
  · exact hset1 hni hnj 0 0 (by decide) (by decide) hc0
  · exact hset1 hni hnj 1 0 (by decide) (by decide) hc1
  · exact hun1 0 1 hn01
  · exact hun1 2 0 hn20
  · exact hset2 hni hnj 0 0 (by decide) (by decide) hc0
  · exact hset2 hni hnj 1 0 (by decide) (by decide) hc1
  · exact hun2 0 1 hn01
  · exact hun2 2 0 hn20

/-! ## Equal distances -/

/-- C11: when `v` is a qualifying vertex of the first sheet whose distance is
the least among the qualifying vertices and no qualifying vertex before it in
polygon order has the same distance, `project` returns the distance, the
bearing and the pixel of `v`, whatever qualifying vertices of the same
distance follow it: their values are lost. -/
theorem project_tie_keeps_first_vertex (altitude_ : ℚ) (cam : vpgl_perspective_camera)
    (horizon : vgl_line_2d) (pre post : List vgl_point_2d) (v : vgl_point_2d)
    (rest : List (List vgl_point_2d))
    (hv : qualifies horizon v)
    (hmin : ∀ w ∈ pre ++ v :: post, qualifies horizon w →
      vertex_dist altitude_ cam v ≤ vertex_dist altitude_ cam w)
    (hfirst : ∀ w ∈ pre, qualifies horizon w →
      vertex_dist altitude_ cam w ≠ vertex_dist altitude_ cam v) :
    project altitude_ cam horizon ((pre ++ v :: post) :: rest) =
      some ⟨vertex_dist altitude_ cam v, cam.phi v.x v.y,
        (vertex_pixel v).1, (vertex_pixel v).2⟩ := by
  have hvq : v ∈ qualifying horizon (pre ++ v :: post) :=
    mem_qualifying.mpr ⟨List.mem_append_right _ (List.mem_cons_self _ _), hv⟩
  obtain ⟨u, hu, humin, hfind, hp⟩ :=
    project_of_qualifying_ne_nil altitude_ cam horizon (pre ++ v :: post) rest
      (List.ne_nil_of_mem hvq)
  have hdist : vertex_dist altitude_ cam u = vertex_dist altitude_ cam v :=
    le_antisymm (humin v hvq) (hmin u (mem_qualifying.mp hu).1 (mem_qualifying.mp hu).2)
  have hsplit : qualifying horizon (pre ++ v :: post) =
      qualifying horizon pre ++ v :: qualifying horizon post := by
    simp [qualifying, List.filter_append, List.filter_cons, hv]
  have huv : u = v := by
    rw [hsplit, List.find?_append] at hfind
    have hnone : (qualifying horizon pre).find?
        (fun a => decide (vertex_dist altitude_ cam a = vertex_dist altitude_ cam u)) = none := by
      rw [List.find?_eq_none]
      intro w hw hwd
      have hwd' : vertex_dist altitude_ cam w = vertex_dist altitude_ cam u := by simpa using hwd
      exact hfirst w (mem_qualifying.mp hw).1 (mem_qualifying.mp hw).2 (hwd'.trans hdist)
    rw [hnone] at hfind
    simp only [Option.none_or, List.find?_cons] at hfind
    have hdec : decide (vertex_dist altitude_ cam v = vertex_dist altitude_ cam u) = true := by
      simpa using hdist.symm
    rw [hdec] at hfind
    exact (Option.some.inj hfind).symm
  rw [hp, huv]

/-- Witness for C11: the second and third of the four vertices both have the
least distance 2; the outputs are the bearing `3/10` and the pixel `(20, 30)`
of the second, not the bearing `7/10` and the pixel `(20, 70)` of the third. -/
theorem project_tie_keeps_first_vertex_witness :
    tie_sheet.map (vertex_dist 1 sample_camera) = [5, 2, 2, 8] ∧
    tie_sheet.map (fun v => sample_camera.phi v.x v.y) = [1 / 10, 3 / 10, 7 / 10, 7 / 20] ∧
    project 1 sample_camera sample_horizon [tie_sheet] = some ⟨2, 3 / 10, 20, 30⟩ := by
  have hv : qualifies sample_horizon ⟨20, 30⟩ := by
    norm_num [qualifies, line_coord, sample_horizon]
  have hmin : ∀ w ∈ [(⟨50, 10⟩ : vgl_point_2d)] ++ ⟨20, 30⟩ :: [⟨20, 70⟩, ⟨80, 35⟩],
      qualifies sample_horizon w →
      vertex_dist 1 sample_camera ⟨20, 30⟩ ≤ vertex_dist 1 sample_camera w := by
    intro w hw _
    simp only [List.singleton_append, List.mem_cons, List.mem_singleton, List.not_mem_nil,
      or_false] at hw
    rcases hw with rfl | rfl | rfl | rfl <;> norm_num [vertex_dist, sample_camera]
  have hfirst : ∀ w ∈ [(⟨50, 10⟩ : vgl_point_2d)], qualifies sample_horizon w →
      vertex_dist 1 sample_camera w ≠ vertex_dist 1 sample_camera ⟨20, 30⟩ := by
    intro w hw _
    rw [List.mem_singleton.mp hw]
    norm_num [vertex_dist, sample_camera]
  have h := project_tie_keeps_first_vertex 1 sample_camera sample_horizon
    [⟨50, 10⟩] [⟨20, 70⟩, ⟨80, 35⟩] ⟨20, 30⟩ [] hv hmin hfirst
  refine ⟨by norm_num [tie_sheet, vertex_dist, sample_camera],
    by norm_num [tie_sheet, sample_camera], ?_⟩
  have hsheet : tie_sheet = [(⟨50, 10⟩ : vgl_point_2d)] ++ ⟨20, 30⟩ :: [⟨20, 70⟩, ⟨80, 35⟩] := rfl
  rw [hsheet, h]
  norm_num [vertex_dist, sample_camera, vertex_pixel, to_unsigned]
  exact ⟨rfl, rfl⟩

end volm
